/-
Verification of the array-language interpreter core (simple_server):
a shallow embedding of the Array value model (j_array.rs), the tokenizer
(tokenizer.rs), the precedence-layered parser (custom_parser.rs), the
semantic analyzer (semantic_analyzer.rs) and the evaluator (evaluator.rs),
composed into the evaluation pipeline used by lib.rs, together with
theorems about the behaviour of each component.

Machine-integer conventions: Rust i32 values are modelled as Int, with the
two-complement wrap `wrap32` applied exactly where the source performs
arithmetic or an `as i32` cast (release-mode wrapping semantics); usize is
modelled as Nat, with `intToUsize` modelling an `as usize` cast of an i32.
The f64 payload of JValue::Float is modelled as a rational with a
truncating, saturating cast to i32 (no claim exercises floats).
-/
import Mathlib

/-- Two-complement wrap of an unbounded integer into the i32 range,
modelling Rust release-mode wrapping arithmetic and `as i32` casts. -/
def wrap32 (x : Int) : Int := (x + 2 ^ 31) % 2 ^ 32 - 2 ^ 31

/-- Model of an `i32 as usize` cast: sign-extend into the 64-bit range. -/
def intToUsize (i : Int) : Nat := (i % 2 ^ 64).toNat

/-- Model of a Rust `f64 as i32` cast on a rational payload:
truncate toward zero, saturating at the i32 bounds. -/
def f64_to_i32 (q : Rat) : Int :=
  max (-(2 ^ 31)) (min (2 ^ 31 - 1) (q.num.tdiv (q.den : Int)))

/-- `ArrayShape` from j_array.rs: an ordered sequence of dimension sizes. -/
structure ArrayShape where
  dimensions : List Nat
deriving DecidableEq

def ArrayShape.scalar : ArrayShape := ⟨[]⟩

def ArrayShape.vector (len : Nat) : ArrayShape := ⟨[len]⟩

def ArrayShape.matrix (rows cols : Nat) : ArrayShape := ⟨[rows, cols]⟩

def ArrayShape.rank (s : ArrayShape) : Nat := s.dimensions.length

/-- `ArrayShape::total_elements`: 1 for a scalar, usize product of the
dimensions otherwise. The source folds the product in usize, which wraps
at 2^64 in release mode at each step; since reduction modulo 2^64 is
multiplicative, that fold equals the whole product taken modulo 2^64. -/
def ArrayShape.total_elements (s : ArrayShape) : Nat :=
  if s.dimensions.isEmpty then 1 else s.dimensions.prod % 2 ^ 64

/-- `JValue` from j_array.rs. The `Box` variant holds an owned array,
stored here as its two fields (data, shape); the f64 payload of `Float`
is modelled as a rational. -/
inductive JValue where
  | Integer : Int → JValue
  | Float : Rat → JValue
  | Character : Char → JValue
  | Box : List JValue → ArrayShape → JValue

/-- `JArray` from j_array.rs. -/
structure JArray where
  data : List JValue
  shape : ArrayShape

/-- `JValue::Box` holding a whole array. -/
def JValue.boxOf (a : JArray) : JValue := .Box a.data a.shape

def JValue.type_name : JValue → String
  | .Integer _ => "integer"
  | .Float _ => "float"
  | .Character _ => "character"
  | .Box _ _ => "box"

def JValue.is_numeric : JValue → Bool
  | .Integer _ => true
  | .Float _ => true
  | _ => false

/-- `JValue::to_integer`: an integer passes through, a float is cast with
`as i32`, anything else is `None`. -/
def JValue.to_integer : JValue → Option Int
  | .Integer i => some i
  | .Float q => some (f64_to_i32 q)
  | _ => none

/-- `ArrayError` from j_array.rs. -/
inductive ArrayError where
  | IndexOutOfBounds : ArrayError
  | ShapeMismatch : ArrayShape → ArrayShape → ArrayError
  | TypeMismatch : String → String → ArrayError
  | InvalidReshape : ArrayShape → ArrayShape → ArrayError
  | DivisionByZero : ArrayError
  | EmptyArray : ArrayError
  | InvalidDimension : Nat → ArrayError

def JArray.scalar (value : Int) : JArray :=
  ⟨[JValue.Integer value], ArrayShape.scalar⟩

def JArray.vector (values : List Int) : JArray :=
  ⟨values.map JValue.Integer, ArrayShape.vector values.length⟩

/-- `JArray::matrix` (the source asserts `values.len() == rows * cols`;
the assertion is not modelled). -/
def JArray.matrix (values : List Int) (rows cols : Nat) : JArray :=
  ⟨values.map JValue.Integer, ArrayShape.matrix rows cols⟩

def JArray.is_scalar (a : JArray) : Bool := a.shape.rank == 0

def JArray.is_vector (a : JArray) : Bool := a.shape.rank == 1

def JArray.is_matrix (a : JArray) : Bool := a.shape.rank == 2

/-- `JArray::tally`: 1 for a scalar, first dimension size otherwise. -/
def JArray.tally (a : JArray) : Nat :=
  match a.shape.dimensions with
  | [] => 1
  | d :: _ => d

/-- `JArray::reshape`: total element counts must agree; on success the
same data sequence is re-labelled with the new shape. -/
def JArray.reshape (a : JArray) (new_shape : ArrayShape) :
    Except ArrayError JArray :=
  let current_elements := a.shape.total_elements
  let new_elements := new_shape.total_elements
  if current_elements ≠ new_elements then
    .error (.InvalidReshape a.shape new_shape)
  else
    .ok ⟨a.data, new_shape⟩

/-- The element-fetch loop of `JArray::select_from`: for each index value,
convert to an integer, bounds-check against the source data length, and
fetch the addressed source element. -/
def selectLoop (src : List JValue) : List JValue → Except ArrayError (List JValue)
  | [] => .ok []
  | v :: rest =>
    match v.to_integer with
    | none => .error (.TypeMismatch "integer" v.type_name)
    | some index =>
      if index < 0 ∨ src.length ≤ index.toNat then
        .error .IndexOutOfBounds
      else do
        let out ← selectLoop src rest
        .ok (src.getD index.toNat (.Integer 0) :: out)

/-- `JArray::select_from` (self is the source array): fetch
`self.data[index]` for every index in `indices`; the result takes the
shape of `indices`. -/
def JArray.select_from (source : JArray) (indices : JArray) :
    Except ArrayError JArray := do
  let result_data ← selectLoop source.data indices.data
  .ok ⟨result_data, indices.shape⟩

/-- `JArray::ravel`: flatten to rank 1, preserving the data order. -/
def JArray.ravel (a : JArray) : JArray :=
  ⟨a.data, ArrayShape.vector a.data.length⟩

/-- `JArray::concatenate`: vector+vector concatenates the data sequences,
scalar+scalar forms a 2-element vector from `data[0]` of each side, and
every other rank combination ravels both operands first (the source
recurses on the ravelled vectors; that call is unrolled here, since two
ravelled arrays always take the vector+vector branch). Indexing `data[0]`
in the scalar branch is modelled with a defaulted head (the source would
panic only on data that breaks the array invariant). -/
def JArray.concatenate (a : JArray) (b : JArray) : Except ArrayError JArray :=
  if a.is_vector && b.is_vector then
    let result_data := a.data ++ b.data
    .ok ⟨result_data, ArrayShape.vector result_data.length⟩
  else if a.is_scalar && b.is_scalar then
    .ok ⟨[a.data.headD (.Integer 0), b.data.headD (.Integer 0)],
         ArrayShape.vector 2⟩
  else
    let self_ravel := a.ravel
    let other_ravel := b.ravel
    let result_data := self_ravel.data ++ other_ravel.data
    .ok ⟨result_data, ArrayShape.vector result_data.length⟩

/-- `JArray::box_array`: wrap a whole array as a single boxed value in a
rank-0 array. -/
def JArray.box_array (array : JArray) : JArray :=
  ⟨[JValue.boxOf array], ArrayShape.scalar⟩

/-- `JArray::unbox`: defined only on a rank-0 array whose sole value is a
box. -/
def JArray.unbox (a : JArray) : Option JArray :=
  if a.is_scalar then
    match a.data.headD (.Integer 0) with
    | .Box d s => some ⟨d, s⟩
    | _ => none
  else none

/-- `JArray::new_scalar`: an i64 cast to i32. -/
def JArray.new_scalar (value : Int) : JArray := JArray.scalar (wrap32 value)

/-- `JArray::new_integer`: i64 data cast element-wise to i32, dispatched
on the requested rank (rank 0 indexes `values[0]`, modelled with a
defaulted head). -/
def JArray.new_integer (rank : Nat) (shape : List Nat) (data : List Int) :
    JArray :=
  let values := data.map wrap32
  match rank with
  | 0 => JArray.scalar (values.headD 0)
  | 1 => JArray.vector values
  | 2 => JArray.matrix values (shape.getD 0 0) (shape.getD 1 0)
  | _ => JArray.vector values

/-- The array invariant: the data length equals the total element count of
the shape (empty product = 1 for rank 0). -/
def JArray.inv (a : JArray) : Prop :=
  a.data.length = a.shape.total_elements

/-- `Token` from tokenizer.rs. -/
inductive Token where
  | Vector : JArray → Token
  | Verb : Char → Token
  | LeftParen : Token
  | RightParen : Token

/-- `TokenError` from tokenizer.rs. -/
inductive TokenError where
  | InvalidNumber : String → TokenError
  | UnknownCharacter : Char → TokenError
  | InvalidVector : String → TokenError

/-- `ParseError` from parser.rs, plus the `NotImplemented` variant that
custom_parser.rs constructs. -/
inductive ParseError where
  | UnexpectedToken : String → Nat → ParseError
  | UnexpectedEndOfInput : ParseError
  | InvalidExpression : String → ParseError
  | NotImplemented : String → ParseError

/-- `SemanticError` from semantic_analyzer.rs. -/
inductive SemanticError where
  | AmbiguousVerbContext : Char → String → SemanticError
  | InvalidVerbUsage : Char → String → SemanticError
  | UnresolvedAmbiguity : String → SemanticError
  | ArrayError : ArrayError → SemanticError

/-- `EvaluationError` from evaluator.rs. -/
inductive EvaluationError where
  | UnsupportedVerb : Char → String → EvaluationError
  | DimensionMismatch : String → EvaluationError
  | DomainError : String → EvaluationError
  | RankError : String → EvaluationError
  | ArrayError : ArrayError → EvaluationError

/-- `InterpreterError` from interpreter.rs: the union of the four stage
error types. -/
inductive InterpreterError where
  | TokenError : TokenError → InterpreterError
  | ParseError : ParseError → InterpreterError
  | SemanticError : SemanticError → InterpreterError
  | EvaluationError : EvaluationError → InterpreterError

/-- Consume the maximal run of leading decimal digits, returning the run
and the rest of the input (the first-number / further-number loops of
`JTokenizer::tokenize`). -/
def lexDigits : List Char → List Char × List Char
  | [] => ([], [])
  | c :: cs =>
    if c.isDigit then
      let (ds, rest) := lexDigits cs
      (c :: ds, rest)
    else ([], c :: cs)

/-- Numeric value of a digit run. -/
def digitsToNat (ds : List Char) : Nat :=
  ds.foldl (fun acc c => acc * 10 + (c.toNat - '0'.toNat)) 0

/-- `number.parse::<i64>()` on a non-empty digit run: fails with
`InvalidNumber` when the value exceeds the i64 range. -/
def parseI64 (ds : List Char) : Except TokenError Int :=
  let n := digitsToNat ds
  if n ≤ 2 ^ 63 - 1 then .ok (n : Int)
  else .error (.InvalidNumber (String.mk ds))

/-- The look-for-more-numbers loop inside the digit branch of
`JTokenizer::tokenize`: while the rest starts with a space, consume the
space run; if a digit follows, lex the next number into the same vector,
otherwise stop (with the spaces already consumed, as in the source).
The fuel argument only bounds the recursion; one unit per consumed number
suffices, and callers pass the input length. -/
def lexNumTail : Nat → List Char → Except TokenError (List Int × List Char)
  | 0, cs => .ok ([], cs)
  | fuel + 1, cs =>
    match cs with
    | ' ' :: rest =>
      let rest2 := rest.dropWhile (fun c => c = ' ')
      match rest2 with
      | [] => .ok ([], [])
      | c :: _ =>
        if c.isDigit then
          let (ds, r) := lexDigits rest2
          match parseI64 ds with
          | .error e => .error e
          | .ok n => do
            let (ns, r2) ← lexNumTail fuel r
            .ok (n :: ns, r2)
        else .ok ([], rest2)
    | _ => .ok ([], cs)

/-- The main loop of `JTokenizer::tokenize` over the remaining characters.
The fuel argument only bounds the recursion (one unit per iteration, each
of which consumes at least one character); `tokenize` passes the input
length plus one, which is always sufficient. -/
def tokenizeAux : Nat → List Char → Except TokenError (List Token)
  | 0, _ => .ok []
  | fuel + 1, cs =>
    match cs with
    | [] => .ok []
    | c :: rest =>
      if c.isDigit then
        let (ds, r) := lexDigits (c :: rest)
        match parseI64 ds with
        | .error e => .error e
        | .ok n =>
          match lexNumTail (r.length + 1) r with
          | .error e => .error e
          | .ok (ns, r2) =>
            let numbers := n :: ns
            let jarray :=
              if numbers.length = 1 then JArray.new_scalar n
              else JArray.new_integer 1 [numbers.length] numbers
            do
              let ts ← tokenizeAux fuel r2
              .ok (.Vector jarray :: ts)
      else if c = '+' ∨ c = '~' ∨ c = '#' ∨ c = '<' ∨ c = '{' ∨ c = ',' then do
        let ts ← tokenizeAux fuel rest
        .ok (.Verb c :: ts)
      else if c = '(' then do
        let ts ← tokenizeAux fuel rest
        .ok (.LeftParen :: ts)
      else if c = ')' then do
        let ts ← tokenizeAux fuel rest
        .ok (.RightParen :: ts)
      else if c = ' ' then
        tokenizeAux fuel rest
      else
        .error (.UnknownCharacter c)

/-- `JTokenizer::tokenize`. -/
def tokenize (input : String) : Except TokenError (List Token) :=
  tokenizeAux (input.data.length + 1) input.data

/-- `JNode` from parser.rs: resolved nodes plus the intermediate
arity-ambiguous verb node. -/
inductive JNode where
  | Literal : JArray → JNode
  | MonadicVerb : Char → JNode → JNode
  | DyadicVerb : Char → JNode → JNode → JNode
  | AmbiguousVerb : Char → Option JNode → Option JNode → JNode

/-- The `format!` message of custom_parser.rs for an unimplemented
operator at expression level. -/
def notImplMsg (op : Char) : String :=
  "Error: Operator " ++ String.singleton (Char.ofNat 39) ++
    String.singleton op ++ String.singleton (Char.ofNat 39) ++
    " not implemented in Phase 5"

/-- The `format!` message of custom_parser.rs for an unexpected token. -/
def unexpectedTokenMsg (pos : Nat) : String :=
  "Error: Unexpected token at position " ++ toString pos

/- The members of custom_parser.rs, modelled as mutually recursive
functions over the token list and the current position. `parseExprLoop`
and `parseJOpsLoop` are the `while` loops of `parse_expression` and
`parse_j_operators`. The fuel argument only bounds the recursion (every
call site strictly decreases it); `CustomParser.parse` passes an amount
that is always sufficient because each loop iteration and each nested
descent consumes at least one token. -/
mutual

/-- `CustomParser::parse_expression`: a j-operators term, then the
lowest-precedence dyadic `+` loop. -/
def parseExpr : Nat → List Token → Nat → Except ParseError (JNode × Nat)
  | 0, _, _ => .error (.InvalidExpression "fuel exhausted")
  | fuel + 1, ts, pos => do
    let (l, p) ← parseJOps fuel ts pos
    parseExprLoop fuel ts l p
termination_by structural fuel _ts _pos => fuel

/-- The `while` loop of `parse_expression`: consume `+` and a j-operators
right operand, growing the chain to the left; a non-`+` verb here is a
`NotImplemented` error; anything else ends the expression. -/
def parseExprLoop :
    Nat → List Token → JNode → Nat → Except ParseError (JNode × Nat)
  | 0, _, _, _ => .error (.InvalidExpression "fuel exhausted")
  | fuel + 1, ts, left, pos =>
    match ts[pos]? with
    | some (.Verb '+') => do
      let (r, p) ← parseJOps fuel ts (pos + 1)
      parseExprLoop fuel ts (.AmbiguousVerb '+' (some left) (some r)) p
    | some (.Verb op) => .error (.NotImplemented (notImplMsg op))
    | _ => .ok (left, pos)
termination_by structural fuel _ts _left _pos => fuel

/-- `CustomParser::parse_j_operators`: a monadic-or-primary term, then the
left-associative array-operator loop. -/
def parseJOps : Nat → List Token → Nat → Except ParseError (JNode × Nat)
  | 0, _, _ => .error (.InvalidExpression "fuel exhausted")
  | fuel + 1, ts, pos => do
    let (l, p) ← parseMonadic fuel ts pos
    parseJOpsLoop fuel ts l p
termination_by structural fuel _ts _pos => fuel

/-- The `while` loop of `parse_j_operators`: each of `# { , < ~ -`
consumes a monadic-or-primary right operand and chains dyadically to the
left; any other token ends the loop. -/
def parseJOpsLoop :
    Nat → List Token → JNode → Nat → Except ParseError (JNode × Nat)
  | 0, _, _, _ => .error (.InvalidExpression "fuel exhausted")
  | fuel + 1, ts, left, pos =>
    match ts[pos]? with
    | some (.Verb c) =>
      if c = '#' ∨ c = '{' ∨ c = ',' ∨ c = '<' ∨ c = '~' ∨ c = '-' then do
        let (r, p) ← parseMonadic fuel ts (pos + 1)
        parseJOpsLoop fuel ts (.AmbiguousVerb c (some left) (some r)) p
      else .ok (left, pos)
    | _ => .ok (left, pos)
termination_by structural fuel _ts _left _pos => fuel

/-- `CustomParser::parse_monadic`: a leading verb among `~ - # , < {`
binds tightly to the single primary that follows, producing a candidate
monadic node; otherwise fall through to primary parsing. -/
def parseMonadic : Nat → List Token → Nat → Except ParseError (JNode × Nat)
  | 0, _, _ => .error (.InvalidExpression "fuel exhausted")
  | fuel + 1, ts, pos =>
    match ts[pos]? with
    | some (.Verb c) =>
      if c = '~' ∨ c = '-' ∨ c = '#' ∨ c = ',' ∨ c = '<' ∨ c = '{' then do
        let (operand, p) ← parsePrimary fuel ts (pos + 1)
        .ok (JNode.AmbiguousVerb c none (some operand), p)
      else parsePrimary fuel ts pos
    | _ => parsePrimary fuel ts pos
termination_by structural fuel _ts _pos => fuel

/-- `CustomParser::parse_primary`: a literal vector token, or a
parenthesized sub-expression whose closing parenthesis must be present. -/
def parsePrimary : Nat → List Token → Nat → Except ParseError (JNode × Nat)
  | 0, _, _ => .error (.InvalidExpression "fuel exhausted")
  | fuel + 1, ts, pos =>
    match ts[pos]? with
    | none =>
      .error (.NotImplemented
        "Error: Expected expression but reached end of input")
    | some .LeftParen => do
      let (expr, p) ← parseExpr fuel ts (pos + 1)
      match ts[p]? with
      | none =>
        .error (.InvalidExpression "Error: Missing closing parenthesis")
      | some .RightParen => .ok (expr, p + 1)
      | some _ =>
        .error (.InvalidExpression "Error: Expected closing parenthesis")
    | some (.Vector array) => .ok (JNode.Literal array, pos + 1)
    | some (.Verb c) =>
      if c = '~' ∨ c = '-' ∨ c = '#' ∨ c = ',' ∨ c = '<' ∨ c = '{' then
        .error (.NotImplemented "Error: Operator found where literal expected")
      else .error (.NotImplemented (unexpectedTokenMsg pos))
    | some .RightParen => .error (.NotImplemented (unexpectedTokenMsg pos))
termination_by structural fuel _ts _pos => fuel

end

/-- `CustomParser::parse`: reject an empty token list, then parse an
expression from position 0 (the source does not require that all tokens
be consumed). -/
def CustomParser.parse (tokens : List Token) : Except ParseError JNode :=
  if tokens.isEmpty then
    .error (.NotImplemented "Error: Empty expression")
  else do
    let (node, _) ← parseExpr (4 * tokens.length + 4) tokens 0
    .ok node

/-- `JSemanticAnalyzer::validate_monadic_verb`: `+ ~ # , <` are legal
monadically; `{` and anything else signal `InvalidVerbUsage`. -/
def validate_monadic_verb (verb : Char) : Except SemanticError Unit :=
  if verb = '+' then .ok ()
  else if verb = '~' then .ok ()
  else if verb = '#' then .ok ()
  else if verb = ',' then .ok ()
  else if verb = '<' then .ok ()
  else if verb = '{' then
    .error (.InvalidVerbUsage '{'
      "Monadic \x7b (catalog) not supported in this implementation")
  else .error (.InvalidVerbUsage verb "Unknown monadic verb")

/-- `JSemanticAnalyzer::validate_dyadic_verb`: `+ # { , <` are legal
dyadically; `~` and anything else signal `InvalidVerbUsage`. -/
def validate_dyadic_verb (verb : Char) : Except SemanticError Unit :=
  if verb = '+' then .ok ()
  else if verb = '#' then .ok ()
  else if verb = '{' then .ok ()
  else if verb = ',' then .ok ()
  else if verb = '<' then .ok ()
  else if verb = '~' then
    .error (.InvalidVerbUsage '~'
      "Dyadic ~ not supported in this implementation")
  else .error (.InvalidVerbUsage verb "Unknown dyadic verb")

/-- `JSemanticAnalyzer::resolve_context`: resolve each ambiguous verb
node from its operand pattern (operands first, then the arity-legality
check, exactly as in the source), recursing depth-first. -/
def resolve_context : JNode → Except SemanticError JNode
  | .AmbiguousVerb verb none (some right) => do
    let resolved_right ← resolve_context right
    validate_monadic_verb verb
    .ok (.MonadicVerb verb resolved_right)
  | .AmbiguousVerb verb (some left) (some right) => do
    let resolved_left ← resolve_context left
    let resolved_right ← resolve_context right
    validate_dyadic_verb verb
    .ok (.DyadicVerb verb resolved_left resolved_right)
  | .AmbiguousVerb verb (some _) none =>
    .error (.InvalidVerbUsage verb "Verb cannot have only left operand")
  | .AmbiguousVerb verb none none =>
    .error (.InvalidVerbUsage verb "Verb must have at least one operand")
  | .Literal array => .ok (.Literal array)
  | .MonadicVerb verb arg => do
    let resolved_arg ← resolve_context arg
    validate_monadic_verb verb
    .ok (.MonadicVerb verb resolved_arg)
  | .DyadicVerb verb left right => do
    let resolved_left ← resolve_context left
    let resolved_right ← resolve_context right
    validate_dyadic_verb verb
    .ok (.DyadicVerb verb resolved_left resolved_right)

/-- `JSemanticAnalyzer::analyze`. -/
def analyze (ast : JNode) : Except SemanticError JNode := resolve_context ast

/-- The Result-collecting map used by the scalar-extension branches of
`plus_dyadic` (and the dims extraction of `reshape`): convert each value
to an integer, failing with the given `DomainError` message on the first
non-numeric value, and apply `f` to each integer. -/
def mapValsToInts (msg : String) (f : Int → Int) :
    List JValue → Except EvaluationError (List Int)
  | [] => .ok []
  | v :: rest =>
    match v.to_integer with
    | none => .error (.DomainError msg)
    | some i => do
      let is ← mapValsToInts msg f rest
      .ok (f i :: is)

/-- The Result-collecting zip used by the vector-vector branches of
`plus_dyadic` and `less_than`: pair the two data sequences (stopping at
the shorter one, as iterator `zip` does), converting the left then the
right value of each pair to an integer. -/
def zipValsToInts (msg : String) (f : Int → Int → Int) :
    List JValue → List JValue → Except EvaluationError (List Int)
  | [], _ => .ok []
  | _ :: _, [] => .ok []
  | l :: ls, r :: rs =>
    match l.to_integer with
    | none => .error (.DomainError msg)
    | some left_val =>
      match r.to_integer with
      | none => .error (.DomainError msg)
      | some right_val => do
        let is ← zipValsToInts msg f ls rs
        .ok (f left_val right_val :: is)

/-- `JEvaluator::iota` (monadic `~`): a scalar integer n ≥ 0 yields the
vector `[0..n)`; a non-scalar or negative argument is a `DomainError`. -/
def iota (array : JArray) : Except EvaluationError JArray :=
  if !array.is_scalar then
    .error (.DomainError "iota requires a scalar argument")
  else
    match (array.data.headD (.Integer 0)).to_integer with
    | none => .error (.DomainError "iota requires integer argument")
    | some n =>
      if n < 0 then
        .error (.DomainError "iota requires a non-negative argument")
      else
        .ok (JArray.vector ((List.range n.toNat).map Int.ofNat))

/-- `JEvaluator::plus_monadic` (monadic `+`): identity. -/
def plus_monadic (array : JArray) : Except EvaluationError JArray :=
  .ok array

/-- `JEvaluator::tally` (monadic `#`): the tally as an i32 scalar. -/
def tally_verb (array : JArray) : Except EvaluationError JArray :=
  .ok (JArray.scalar (wrap32 (array.tally : Int)))

/-- `JEvaluator::ravel` (monadic `,`). -/
def ravel_verb (array : JArray) : Except EvaluationError JArray :=
  .ok array.ravel

/-- `JEvaluator::box_verb` (monadic `<`). -/
def box_verb (array : JArray) : Except EvaluationError JArray :=
  .ok (JArray.box_array array)

/-- `JEvaluator::plus_dyadic` (dyadic `+`): scalar-extension element-wise
addition over the four scalar/non-scalar combinations; i32 addition is
modelled with `wrap32`. Note the scalar-extension branches rebuild the
result as a rank-1 vector, and the array-array branch requires equal
dimension lists and keeps the left shape. -/
def plus_dyadic (left : JArray) (right : JArray) :
    Except EvaluationError JArray :=
  if left.is_scalar then
    if right.is_scalar then
      match (left.data.headD (.Integer 0)).to_integer with
      | none => .error (.DomainError "Addition requires numeric values")
      | some left_val =>
        match (right.data.headD (.Integer 0)).to_integer with
        | none => .error (.DomainError "Addition requires numeric values")
        | some right_val => .ok (JArray.scalar (wrap32 (left_val + right_val)))
    else
      match (left.data.headD (.Integer 0)).to_integer with
      | none => .error (.DomainError "Addition requires numeric values")
      | some scalar => do
        let result_data ←
          mapValsToInts "Addition requires numeric values"
            (fun i => wrap32 (scalar + i)) right.data
        .ok (JArray.vector result_data)
  else
    if right.is_scalar then
      match (right.data.headD (.Integer 0)).to_integer with
      | none => .error (.DomainError "Addition requires numeric values")
      | some scalar => do
        let result_data ←
          mapValsToInts "Addition requires numeric values"
            (fun i => wrap32 (i + scalar)) left.data
        .ok (JArray.vector result_data)
    else
      if left.shape.dimensions ≠ right.shape.dimensions then
        .error (.DimensionMismatch
          "Arrays must have matching shapes for addition")
      else do
        let result_data ←
          zipValsToInts "Addition requires numeric values"
            (fun a b => wrap32 (a + b)) left.data right.data
        .ok ⟨result_data.map JValue.Integer, left.shape⟩

/-- `JEvaluator::reshape` (dyadic `#`): the left operand supplies the new
dimensions (each entry converted to an integer then cast `as usize`), the
right operand supplies the data, via `JArray::reshape`. -/
def reshape_verb (shape_array : JArray) (data_array : JArray) :
    Except EvaluationError JArray := do
  let new_dims ←
    mapValsToInts "Shape must contain integers" id shape_array.data
  match data_array.reshape ⟨new_dims.map intToUsize⟩ with
  | .ok r => .ok r
  | .error e => .error (.ArrayError e)

/-- `JEvaluator::from_verb` (dyadic `{`): left = indices, right = source,
via `JArray::select_from`. -/
def from_verb (indices : JArray) (source : JArray) :
    Except EvaluationError JArray :=
  match source.select_from indices with
  | .ok r => .ok r
  | .error e => .error (.ArrayError e)

/-- `JEvaluator::concatenate` (dyadic `,`), via `JArray::concatenate`. -/
def concatenate_verb (left : JArray) (right : JArray) :
    Except EvaluationError JArray :=
  match left.concatenate right with
  | .ok r => .ok r
  | .error e => .error (.ArrayError e)

/-- `JEvaluator::less_than` (dyadic `<`): scalar-scalar comparison, or
element-wise comparison when the total element counts agree (the result
keeps the left shape). -/
def less_than (left : JArray) (right : JArray) :
    Except EvaluationError JArray :=
  if left.is_scalar && right.is_scalar then
    match (left.data.headD (.Integer 0)).to_integer with
    | none => .error (.DomainError "Comparison requires numeric values")
    | some left_val =>
      match (right.data.headD (.Integer 0)).to_integer with
      | none => .error (.DomainError "Comparison requires numeric values")
      | some right_val =>
        .ok (JArray.scalar (if left_val < right_val then 1 else 0))
  else
    if left.shape.total_elements ≠ right.shape.total_elements then
      .error (.DimensionMismatch
        "Arrays must have compatible shapes for comparison")
    else do
      let result_data ←
        zipValsToInts "Comparison requires numeric values"
          (fun a b => if a < b then 1 else 0) left.data right.data
      .ok ⟨result_data.map JValue.Integer, left.shape⟩

/-- The message of the evaluator's internal-error branch for a leftover
`AmbiguousVerb` node. -/
def internalAmbiguousMsg : String :=
  "Internal error: AmbiguousVerb node should have been resolved before evaluation"

/-- `JEvaluator::evaluate`: bottom-up reduction of a resolved tree, with
verb dispatch per arity; a leftover `AmbiguousVerb` is an internal
`DomainError`. -/
def evaluate : JNode → Except EvaluationError JArray
  | .Literal array => .ok array
  | .MonadicVerb verb arg => do
    let arg_value ← evaluate arg
    if verb = '~' then iota arg_value
    else if verb = '+' then plus_monadic arg_value
    else if verb = '#' then tally_verb arg_value
    else if verb = ',' then ravel_verb arg_value
    else if verb = '<' then box_verb arg_value
    else .error (.UnsupportedVerb verb "Monadic form not implemented")
  | .DyadicVerb verb left right => do
    let left_value ← evaluate left
    let right_value ← evaluate right
    if verb = '+' then plus_dyadic left_value right_value
    else if verb = '#' then reshape_verb left_value right_value
    else if verb = '{' then from_verb left_value right_value
    else if verb = ',' then concatenate_verb left_value right_value
    else if verb = '<' then less_than left_value right_value
    else .error (.UnsupportedVerb verb "Dyadic form not implemented")
  | .AmbiguousVerb _ _ _ => .error (.DomainError internalAmbiguousMsg)

/-- The evaluation pipeline of lib.rs (`evaluate_j_expression`): tokenize,
parse with the precedence-layered parser, resolve arities, evaluate; each
stage error is injected into `InterpreterError` as in interpreter.rs. -/
def evaluatePipeline (input : String) : Except InterpreterError JArray :=
  match tokenize input with
  | .error e => .error (.TokenError e)
  | .ok tokens =>
    match CustomParser.parse tokens with
    | .error e => .error (.ParseError e)
    | .ok ast =>
      match analyze ast with
      | .error e => .error (.SemanticError e)
      | .ok resolved_ast =>
        match evaluate resolved_ast with
        | .error e => .error (.EvaluationError e)
        | .ok result => .ok result

/-- A tree with no remaining AmbiguousVerb node anywhere. -/
def noAmb : JNode → Prop
  | .Literal _ => True
  | .MonadicVerb _ t => noAmb t
  | .DyadicVerb _ l r => noAmb l ∧ noAmb r
  | .AmbiguousVerb _ _ _ => False


/-- A total element count is always below 2^64 (it is 1 for a scalar and
a residue modulo 2^64 otherwise). -/
theorem total_elements_lt (s : ArrayShape) : s.total_elements < 2 ^ 64 := by
  simp only [ArrayShape.total_elements]
  split
  · norm_num
  · exact Nat.mod_lt _ (by norm_num)

/-- An invariant-satisfying array has fewer than 2^64 data elements (as
any Rust Vec does). -/
theorem inv_length_lt (a : JArray) (h : a.inv) : a.data.length < 2 ^ 64 := by
  rw [JArray.inv] at h
  rw [h]
  exact total_elements_lt a.shape

/-- A freshly built vector of representable length satisfies the array
invariant. -/
theorem vector_inv (xs : List Int) (h : xs.length < 2 ^ 64) :
    (JArray.vector xs).inv := by
  simp only [JArray.inv, JArray.vector, ArrayShape.vector,
    ArrayShape.total_elements, List.length_map]
  simp
  omega

/-- A freshly built rank-1 array over raw values of representable length
satisfies the invariant. -/
theorem mk_vector_inv (vs : List JValue) (h : vs.length < 2 ^ 64) :
    (JArray.mk vs (ArrayShape.vector vs.length)).inv := by
  simp only [JArray.inv, ArrayShape.vector, ArrayShape.total_elements]
  simp
  omega

/-- A scalar satisfies the invariant. -/
theorem scalar_inv (i : Int) : (JArray.scalar i).inv := by
  simp [JArray.inv, JArray.scalar, ArrayShape.scalar, ArrayShape.total_elements]

/-- C1: for the input "~3+~3" the pipeline tokenizes into five tokens,
parses with each monadic `~` bound tightly to its adjacent 3 under the
outer dyadic `+`, resolves to the corresponding monadic/dyadic tree, and
evaluates to the vector [0, 2, 4]. -/
theorem pipeline_iota_plus_iota :
    tokenize "~3+~3" =
      .ok [.Verb '~', .Vector (JArray.scalar 3), .Verb '+',
           .Verb '~', .Vector (JArray.scalar 3)]
    ∧ CustomParser.parse
        [.Verb '~', .Vector (JArray.scalar 3), .Verb '+',
         .Verb '~', .Vector (JArray.scalar 3)] =
      .ok (.AmbiguousVerb '+'
        (some (.AmbiguousVerb '~' none (some (.Literal (JArray.scalar 3)))))
        (some (.AmbiguousVerb '~' none (some (.Literal (JArray.scalar 3))))))
    ∧ analyze (.AmbiguousVerb '+'
        (some (.AmbiguousVerb '~' none (some (.Literal (JArray.scalar 3)))))
        (some (.AmbiguousVerb '~' none (some (.Literal (JArray.scalar 3)))))) =
      .ok (.DyadicVerb '+'
        (.MonadicVerb '~' (.Literal (JArray.scalar 3)))
        (.MonadicVerb '~' (.Literal (JArray.scalar 3))))
    ∧ evaluate (.DyadicVerb '+'
        (.MonadicVerb '~' (.Literal (JArray.scalar 3)))
        (.MonadicVerb '~' (.Literal (JArray.scalar 3)))) =
      .ok (JArray.vector [0, 2, 4])
    ∧ evaluatePipeline "~3+~3" = .ok (JArray.vector [0, 2, 4]) :=
  ⟨rfl, rfl, rfl, rfl, rfl⟩

/-- C2: monadic iota on a rank-0 integer n ≥ 0 yields the vector [0..n);
a negative scalar integer or any argument of nonzero rank is a
DomainError. -/
theorem iota_spec :
    (∀ n : Int, 0 ≤ n →
      iota ⟨[.Integer n], ArrayShape.scalar⟩ =
        .ok (JArray.vector ((List.range n.toNat).map Int.ofNat)))
    ∧ (∀ n : Int, n < 0 →
      iota ⟨[.Integer n], ArrayShape.scalar⟩ =
        .error (.DomainError "iota requires a non-negative argument"))
    ∧ (∀ a : JArray, a.shape.rank ≠ 0 →
      iota a = .error (.DomainError "iota requires a scalar argument")) := by
  refine ⟨fun n hn => ?_, fun n hn => ?_, fun a ha => ?_⟩
  · simp [iota, JArray.is_scalar, ArrayShape.rank, ArrayShape.scalar,
      JValue.to_integer, show ¬(n < 0) by omega]
  · simp [iota, JArray.is_scalar, ArrayShape.rank, ArrayShape.scalar,
      JValue.to_integer, hn]
  · have hb : (a.shape.rank == 0) = false := by simpa using ha
    simp [iota, JArray.is_scalar, hb]

/-- C2 witness: the three cases at n = 3, n = -1, and a rank-1 argument. -/
theorem iota_spec_witness :
    iota ⟨[.Integer 3], ArrayShape.scalar⟩ =
      .ok (JArray.vector ((List.range (Int.toNat 3)).map Int.ofNat))
    ∧ iota ⟨[.Integer (-1)], ArrayShape.scalar⟩ =
      .error (.DomainError "iota requires a non-negative argument")
    ∧ iota (JArray.vector [1, 2]) =
      .error (.DomainError "iota requires a scalar argument") :=
  ⟨iota_spec.1 3 (by decide), iota_spec.2.1 (-1) (by decide),
   iota_spec.2.2 (JArray.vector [1, 2]) (by decide)⟩

/-- C3 counterexample: the success condition of reshape is not agreement
of the mathematical element counts. Through the pipeline, reshaping the
one-element scalar 5 by the shape vector "4294967295 4294967295" (each
entry wrapping to i32 -1 and then cast to usize 2^64 - 1) succeeds in
release mode, because the wrapping usize product of the new dimensions
is 1 — even though their mathematical product (2^64 - 1)^2 is not the
source's element count 1. -/
theorem reshape_spec_counterexample :
    evaluatePipeline "4294967295 4294967295#5" =
      .ok ⟨[JValue.Integer 5],
           ⟨[18446744073709551615, 18446744073709551615]⟩⟩
    ∧ ([18446744073709551615, 18446744073709551615] : List Nat).prod ≠ 1
    ∧ (JArray.scalar 5).data.length = 1 :=
  ⟨rfl, by decide, rfl⟩

/-- C3 (amended): reshape succeeds exactly when the total element counts
as the code computes them (usize products wrapping modulo 2^64, empty
product 1) agree, re-labelling the same data with the new shape, and
otherwise fails with InvalidReshape carrying the from- and to-shapes;
"2 3#1 2 3 4" fails through the pipeline with InvalidReshape from [4] to
[2, 3]. -/
theorem reshape_spec :
    (∀ (src : JArray) (ns : ArrayShape),
      (src.shape.total_elements = ns.total_elements →
        src.reshape ns = .ok ⟨src.data, ns⟩)
      ∧ (src.shape.total_elements ≠ ns.total_elements →
        src.reshape ns = .error (.InvalidReshape src.shape ns)))
    ∧ evaluatePipeline "2 3#1 2 3 4" =
      .error (.EvaluationError (.ArrayError
        (.InvalidReshape (ArrayShape.vector 4) ⟨[2, 3]⟩))) := by
  refine ⟨fun src ns => ⟨fun h => ?_, fun h => ?_⟩, rfl⟩
  · simp [JArray.reshape, h]
  · simp [JArray.reshape, h]

/-- C3 witness: a matching reshape of four elements into 2 by 2, and a
mismatched reshape of two elements into three slots. -/
theorem reshape_spec_witness :
    (JArray.vector [1, 2, 3, 4]).reshape ⟨[2, 2]⟩ =
      .ok ⟨(JArray.vector [1, 2, 3, 4]).data, ⟨[2, 2]⟩⟩
    ∧ (JArray.vector [1, 2]).reshape ⟨[3]⟩ =
      .error (.InvalidReshape (JArray.vector [1, 2]).shape ⟨[3]⟩) :=
  ⟨(reshape_spec.1 (JArray.vector [1, 2, 3, 4]) ⟨[2, 2]⟩).1 (by decide),
   (reshape_spec.1 (JArray.vector [1, 2]) ⟨[3]⟩).2 (by decide)⟩

/-- C4: for any array satisfying the invariant, reshaping its ravel back
to its own shape returns the array unchanged. -/
theorem ravel_reshape_roundtrip (a : JArray) (h : a.inv) :
    a.ravel.reshape a.shape = .ok a := by
  obtain ⟨d, s⟩ := a
  simp [JArray.inv] at h
  have hlt : s.total_elements < 2 ^ 64 := total_elements_lt s
  have hvec : (ArrayShape.vector d.length).total_elements =
      d.length % 2 ^ 64 := by
    simp [ArrayShape.vector, ArrayShape.total_elements]
  have hcond : (ArrayShape.vector d.length).total_elements =
      s.total_elements := by
    rw [hvec, h, Nat.mod_eq_of_lt hlt]
  simp [JArray.ravel, JArray.reshape, hcond]

/-- C4 witness: the round trip at a concrete 2-element vector. -/
theorem ravel_reshape_roundtrip_witness :
    (JArray.vector [5, 6]).ravel.reshape (JArray.vector [5, 6]).shape =
      .ok (JArray.vector [5, 6]) :=
  ravel_reshape_roundtrip (JArray.vector [5, 6]) (vector_inv [5, 6] (by norm_num))

/-- The single characterization behind concatenate: for invariant-
satisfying operands the result is always the rank-1 array holding the
left data followed by the right data. -/
theorem concatenate_eq (a b : JArray) (ha : a.inv) (hb : b.inv) :
    a.concatenate b =
      .ok ⟨a.data ++ b.data,
           ArrayShape.vector (a.data.length + b.data.length)⟩ := by
  by_cases hv : (a.is_vector && b.is_vector) = true
  · simp [JArray.concatenate, hv]
  · by_cases hs : (a.is_scalar && b.is_scalar) = true
    · have hsa : a.shape.dimensions = [] := by
        have := (Bool.and_eq_true _ _).mp hs |>.1
        simpa [JArray.is_scalar, ArrayShape.rank] using this
      have hsb : b.shape.dimensions = [] := by
        have := (Bool.and_eq_true _ _).mp hs |>.2
        simpa [JArray.is_scalar, ArrayShape.rank] using this
      have hla : a.data.length = 1 := by
        simpa [JArray.inv, ArrayShape.total_elements, hsa] using ha
      have hlb : b.data.length = 1 := by
        simpa [JArray.inv, ArrayShape.total_elements, hsb] using hb
      obtain ⟨x, hx⟩ := List.length_eq_one.mp hla
      obtain ⟨y, hy⟩ := List.length_eq_one.mp hlb
      simp [JArray.concatenate, hv, hs, hx, hy]
    · simp [JArray.concatenate, hv, hs, JArray.ravel]

/-- C6: concatenation always produces a rank-1 array holding the left
data sequence followed by the right one (vector+vector and scalar+scalar
directly, any other rank combination after ravelling) — there is no
shape-preserving concatenation along an axis; "1 2,3 4" evaluates to
[1,2,3,4] and "1,2" to [1,2]. -/
theorem concatenate_spec :
    (∀ a b : JArray, a.inv → b.inv →
      a.concatenate b =
        .ok ⟨a.data ++ b.data,
             ArrayShape.vector (a.data.length + b.data.length)⟩)
    ∧ evaluatePipeline "1 2,3 4" = .ok (JArray.vector [1, 2, 3, 4])
    ∧ evaluatePipeline "1,2" = .ok (JArray.vector [1, 2]) :=
  ⟨concatenate_eq, rfl, rfl⟩

/-- C6 witness: a scalar-scalar and a vector-vector concatenation. -/
theorem concatenate_spec_witness :
    (JArray.scalar 1).concatenate (JArray.scalar 2) =
      .ok ⟨(JArray.scalar 1).data ++ (JArray.scalar 2).data,
           ArrayShape.vector
             ((JArray.scalar 1).data.length + (JArray.scalar 2).data.length)⟩
    ∧ (JArray.vector [1, 2]).concatenate (JArray.vector [3, 4]) =
      .ok ⟨(JArray.vector [1, 2]).data ++ (JArray.vector [3, 4]).data,
           ArrayShape.vector ((JArray.vector [1, 2]).data.length +
             (JArray.vector [3, 4]).data.length)⟩ :=
  ⟨concatenate_spec.1 (JArray.scalar 1) (JArray.scalar 2)
     (scalar_inv 1) (scalar_inv 2),
   concatenate_spec.1 (JArray.vector [1, 2]) (JArray.vector [3, 4])
     (vector_inv [1, 2] (by norm_num)) (vector_inv [3, 4] (by norm_num))⟩

/-- Bind on an ok Except value reduces to the continuation. -/
@[simp] theorem except_bind_ok {α β ε : Type} (a : α) (f : α → Except ε β) :
    (Except.ok a >>= f : Except ε β) = f a := rfl

/-- Bind on an error Except value propagates the error. -/
@[simp] theorem except_bind_err {α β ε : Type} (e : ε) (f : α → Except ε β) :
    ((Except.error e : Except ε α) >>= f : Except ε β) = .error e := rfl

/-- When every index is an in-range integer, the select loop fetches the
addressed source element for each index, in order. -/
theorem selectLoop_ok (src : List JValue) :
    ∀ vs : List JValue,
    (∀ v ∈ vs, ∃ k : Int, v = .Integer k) →
    (∀ v ∈ vs, ∀ k : Int, v = .Integer k →
      0 ≤ k ∧ k.toNat < src.length) →
    selectLoop src vs =
      .ok (vs.map (fun v =>
        src.getD (v.to_integer.getD 0).toNat (.Integer 0)))
  | [], _, _ => rfl
  | v :: rest, hint, hrange => by
    obtain ⟨k, rfl⟩ := hint _ (List.mem_cons_self _ _)
    obtain ⟨hk0, hklt⟩ := hrange _ (List.mem_cons_self _ _) k rfl
    have hcond : ¬(k < 0 ∨ src.length ≤ k.toNat) := by omega
    have ih := selectLoop_ok src rest
      (fun v hv => hint v (List.mem_cons_of_mem _ hv))
      (fun v hv => hrange v (List.mem_cons_of_mem _ hv))
    simp [selectLoop, JValue.to_integer, hcond, ih]

/-- When every index is an integer but some index is out of range, the
select loop fails with IndexOutOfBounds. -/
theorem selectLoop_err (src : List JValue) :
    ∀ vs : List JValue,
    (∀ v ∈ vs, ∃ k : Int, v = .Integer k) →
    (∃ v ∈ vs, ∃ k : Int, v = .Integer k ∧
      (k < 0 ∨ src.length ≤ k.toNat)) →
    selectLoop src vs = .error .IndexOutOfBounds
  | [], _, hbad => by simp at hbad
  | v :: rest, hint, hbad => by
    obtain ⟨k, rfl⟩ := hint _ (List.mem_cons_self _ _)
    by_cases hcond : k < 0 ∨ src.length ≤ k.toNat
    · simp [selectLoop, JValue.to_integer, hcond]
    · obtain ⟨v', hv', k', hk', hbad'⟩ := hbad
      rcases List.mem_cons.mp hv' with rfl | hmem
      · cases hk'
        exact absurd hbad' hcond
      · have ih := selectLoop_err src rest
          (fun v hv => hint v (List.mem_cons_of_mem _ hv))
          ⟨v', hmem, k', hk', hbad'⟩
        simp [selectLoop, JValue.to_integer, hcond, ih]

/-- C5: over an all-integer indices array, select_from succeeds exactly
when every index lies in [0, source.data.len()), returning an array with
the shape of the indices, and whose i-th element is the source element at
the i-th index; as soon as some index is negative or at least the source
data length it fails with IndexOutOfBounds. -/
theorem select_from_spec (indices source : JArray)
    (hint : ∀ v ∈ indices.data, ∃ k : Int, v = .Integer k) :
    ((∀ v ∈ indices.data, ∀ k : Int, v = .Integer k →
        0 ≤ k ∧ k.toNat < source.data.length) →
      source.select_from indices =
        .ok ⟨indices.data.map (fun v =>
              source.data.getD (v.to_integer.getD 0).toNat (.Integer 0)),
             indices.shape⟩)
    ∧ (¬ (∀ v ∈ indices.data, ∀ k : Int, v = .Integer k →
        0 ≤ k ∧ k.toNat < source.data.length) →
      source.select_from indices = .error .IndexOutOfBounds) := by
  constructor
  · intro hrange
    simp [JArray.select_from, selectLoop_ok source.data indices.data hint hrange]
  · intro hrange
    push_neg at hrange
    obtain ⟨v, hv, k, hk, hbad⟩ := hrange
    have hbad' : k < 0 ∨ source.data.length ≤ k.toNat := by
      by_cases h0 : k < 0
      · exact Or.inl h0
      · refine Or.inr ?_
        have := hbad (by omega)
        omega
    simp [JArray.select_from,
      selectLoop_err source.data indices.data hint ⟨v, hv, k, hk, hbad'⟩]

/-- C5 witness: indices [0, 2] into [10, 20, 30, 40] select [10, 30];
index 5 into a 3-element source is IndexOutOfBounds. -/
theorem select_from_spec_witness :
    (JArray.vector [10, 20, 30, 40]).select_from (JArray.vector [0, 2]) =
      .ok ⟨(JArray.vector [0, 2]).data.map (fun v =>
            (JArray.vector [10, 20, 30, 40]).data.getD
              (v.to_integer.getD 0).toNat (.Integer 0)),
           (JArray.vector [0, 2]).shape⟩
    ∧ (JArray.vector [10, 20, 30]).select_from (JArray.vector [5]) =
      .error .IndexOutOfBounds := by
  constructor
  · refine (select_from_spec (JArray.vector [0, 2])
      (JArray.vector [10, 20, 30, 40]) ?_).1 ?_
    · intro v hv
      simp [JArray.vector] at hv
      rcases hv with rfl | rfl
      · exact ⟨0, rfl⟩
      · exact ⟨2, rfl⟩
    · intro v hv k hk
      simp [JArray.vector] at hv
      rcases hv with rfl | rfl <;> cases hk <;> simp [JArray.vector]
  · refine (select_from_spec (JArray.vector [5])
      (JArray.vector [10, 20, 30]) ?_).2 ?_
    · intro v hv
      simp [JArray.vector] at hv
      subst hv
      exact ⟨5, rfl⟩
    · intro h
      have := h (JValue.Integer 5) (by simp [JArray.vector]) 5 rfl
      simp [JArray.vector] at this

/-- Map on an ok Except value applies the function. -/
@[simp] theorem except_map_ok {α β ε : Type} (f : α → β) (a : α) :
    (Except.map f (Except.ok a) : Except ε β) = .ok (f a) := rfl

/-- Map on an error Except value propagates the error. -/
@[simp] theorem except_map_err {α β ε : Type} (f : α → β) (e : ε) :
    (Except.map f (Except.error e) : Except ε β) = .error e := rfl

/-- C7: arity resolution maps a right-only ambiguous verb to a monadic
node exactly for + ~ # , < (monadic `\x7b` is InvalidVerbUsage), maps a
two-operand ambiguous verb to a dyadic node exactly for + # \x7b , <
(dyadic ~ is InvalidVerbUsage), always rejects a left-only or
operand-less ambiguous verb, passes literals through unchanged, and
recurses into operands. -/
theorem resolve_context_spec :
    (∀ (v : Char) (r : JNode), v ∈ (['+', '~', '#', ',', '<'] : List Char) →
      resolve_context (.AmbiguousVerb v none (some r)) =
        Except.map (JNode.MonadicVerb v) (resolve_context r))
    ∧ (∀ (v : Char) (r rr : JNode),
        v ∉ (['+', '~', '#', ',', '<'] : List Char) →
        resolve_context r = .ok rr →
        ∃ s, resolve_context (.AmbiguousVerb v none (some r)) =
          .error (.InvalidVerbUsage v s))
    ∧ (∀ r rr : JNode, resolve_context r = .ok rr →
        resolve_context (.AmbiguousVerb '{' none (some r)) =
          .error (.InvalidVerbUsage '{'
            "Monadic \x7b (catalog) not supported in this implementation"))
    ∧ (∀ (v : Char) (l r : JNode), v ∈ (['+', '#', '{', ',', '<'] : List Char) →
      resolve_context (.AmbiguousVerb v (some l) (some r)) =
        resolve_context l >>= fun ll =>
          Except.map (JNode.DyadicVerb v ll) (resolve_context r))
    ∧ (∀ (v : Char) (l r ll rr : JNode),
        v ∉ (['+', '#', '{', ',', '<'] : List Char) →
        resolve_context l = .ok ll → resolve_context r = .ok rr →
        ∃ s, resolve_context (.AmbiguousVerb v (some l) (some r)) =
          .error (.InvalidVerbUsage v s))
    ∧ (∀ l r ll rr : JNode,
        resolve_context l = .ok ll → resolve_context r = .ok rr →
        resolve_context (.AmbiguousVerb '~' (some l) (some r)) =
          .error (.InvalidVerbUsage '~'
            "Dyadic ~ not supported in this implementation"))
    ∧ (∀ (v : Char) (l : JNode),
      resolve_context (.AmbiguousVerb v (some l) none) =
        .error (.InvalidVerbUsage v "Verb cannot have only left operand"))
    ∧ (∀ v : Char,
      resolve_context (.AmbiguousVerb v none none) =
        .error (.InvalidVerbUsage v "Verb must have at least one operand"))
    ∧ (∀ a : JArray, resolve_context (.Literal a) = .ok (.Literal a)) := by
  refine ⟨?_, ?_, ?_, ?_, ?_, ?_, fun v l => rfl, fun v => rfl, fun a => rfl⟩
  · intro v r hv
    cases h : resolve_context r with
    | error e => simp [resolve_context, h]
    | ok rr =>
      simp at hv
      rcases hv with rfl | rfl | rfl | rfl | rfl <;>
        simp [resolve_context, h, validate_monadic_verb]
  · intro v r rr hv h
    simp at hv
    obtain ⟨h1, h2, h3, h4, h5⟩ := hv
    by_cases h6 : v = '{'
    · subst h6
      exact ⟨"Monadic \x7b (catalog) not supported in this implementation",
        by simp [resolve_context, h, validate_monadic_verb]⟩
    · exact ⟨"Unknown monadic verb",
        by simp [resolve_context, h, validate_monadic_verb, h1, h2, h3, h4, h5, h6]⟩
  · intro r rr h
    simp [resolve_context, h, validate_monadic_verb]
  · intro v l r hv
    cases hl : resolve_context l with
    | error e => simp [resolve_context, hl]
    | ok ll =>
      cases hr : resolve_context r with
      | error e =>
        simp at hv
        rcases hv with rfl | rfl | rfl | rfl | rfl <;>
          simp [resolve_context, hl, hr, validate_dyadic_verb]
      | ok rr =>
        simp at hv
        rcases hv with rfl | rfl | rfl | rfl | rfl <;>
          simp [resolve_context, hl, hr, validate_dyadic_verb]
  · intro v l r ll rr hv hl hr
    simp at hv
    obtain ⟨h1, h2, h3, h4, h5⟩ := hv
    by_cases h6 : v = '~'
    · subst h6
      exact ⟨"Dyadic ~ not supported in this implementation",
        by simp [resolve_context, hl, hr, validate_dyadic_verb]⟩
    · exact ⟨"Unknown dyadic verb",
        by simp [resolve_context, hl, hr, validate_dyadic_verb,
          h1, h2, h3, h4, h5, h6]⟩
  · intro l r ll rr hl hr
    simp [resolve_context, hl, hr, validate_dyadic_verb]

/-- C7 witness: each resolution rule at concrete literal operands. -/
theorem resolve_context_spec_witness :
    resolve_context
        (.AmbiguousVerb '~' none (some (.Literal (JArray.scalar 3)))) =
      Except.map (JNode.MonadicVerb '~')
        (resolve_context (.Literal (JArray.scalar 3)))
    ∧ (∃ s, resolve_context
        (.AmbiguousVerb '{' none (some (.Literal (JArray.scalar 3)))) =
      .error (.InvalidVerbUsage '{' s))
    ∧ resolve_context
        (.AmbiguousVerb '{' none (some (.Literal (JArray.scalar 3)))) =
      .error (.InvalidVerbUsage '{'
        "Monadic \x7b (catalog) not supported in this implementation")
    ∧ resolve_context (.AmbiguousVerb '#'
        (some (.Literal (JArray.scalar 2)))
        (some (.Literal (JArray.scalar 3)))) =
      (resolve_context (.Literal (JArray.scalar 2)) >>= fun ll =>
        Except.map (JNode.DyadicVerb '#' ll)
          (resolve_context (.Literal (JArray.scalar 3))))
    ∧ (∃ s, resolve_context (.AmbiguousVerb '~'
        (some (.Literal (JArray.scalar 2)))
        (some (.Literal (JArray.scalar 3)))) =
      .error (.InvalidVerbUsage '~' s))
    ∧ resolve_context (.AmbiguousVerb '~'
        (some (.Literal (JArray.scalar 2)))
        (some (.Literal (JArray.scalar 3)))) =
      .error (.InvalidVerbUsage '~'
        "Dyadic ~ not supported in this implementation") :=
  ⟨resolve_context_spec.1 '~' (.Literal (JArray.scalar 3)) (by decide),
   resolve_context_spec.2.1 '{' (.Literal (JArray.scalar 3))
     (.Literal (JArray.scalar 3)) (by decide) rfl,
   resolve_context_spec.2.2.1 (.Literal (JArray.scalar 3))
     (.Literal (JArray.scalar 3)) rfl,
   resolve_context_spec.2.2.2.1 '#' (.Literal (JArray.scalar 2))
     (.Literal (JArray.scalar 3)) (by decide),
   resolve_context_spec.2.2.2.2.1 '~' (.Literal (JArray.scalar 2))
     (.Literal (JArray.scalar 3)) (.Literal (JArray.scalar 2))
     (.Literal (JArray.scalar 3)) (by decide) rfl rfl,
   resolve_context_spec.2.2.2.2.2.1 (.Literal (JArray.scalar 2))
     (.Literal (JArray.scalar 3)) (.Literal (JArray.scalar 2))
     (.Literal (JArray.scalar 3)) rfl rfl⟩

/-- The collecting map preserves list length on success. -/
theorem mapValsToInts_ok_length (msg : String) (f : Int → Int) :
    ∀ (vs : List JValue) (out : List Int),
      mapValsToInts msg f vs = .ok out → out.length = vs.length := by
  intro vs
  induction vs with
  | nil => intro out h; cases h; rfl
  | cons v rest ih =>
    intro out h
    simp only [mapValsToInts] at h
    cases hv : v.to_integer with
    | none => rw [hv] at h; cases h
    | some i =>
      rw [hv] at h
      cases hrest : mapValsToInts msg f rest with
      | error e => rw [hrest] at h; cases h
      | ok is =>
        rw [hrest] at h
        simp at h
        subst h
        simp [ih is hrest]

/-- The collecting zip produces the length of the shorter operand on
success. -/
theorem zipValsToInts_ok_length (msg : String) (f : Int → Int → Int) :
    ∀ (ls rs : List JValue) (out : List Int),
      zipValsToInts msg f ls rs = .ok out →
      out.length = min ls.length rs.length := by
  intro ls
  induction ls with
  | nil => intro rs out h; cases h; simp
  | cons l ls ih =>
    intro rs out h
    cases rs with
    | nil => cases h; simp
    | cons r rs =>
      simp only [zipValsToInts] at h
      cases hl : l.to_integer with
      | none => rw [hl] at h; cases h
      | some a =>
        rw [hl] at h
        cases hr : r.to_integer with
        | none => rw [hr] at h; cases h
        | some b =>
          rw [hr] at h
          cases hrest : zipValsToInts msg f ls rs with
          | error e => rw [hrest] at h; cases h
          | ok is =>
            rw [hrest] at h
            simp at h
            subst h
            simp only [List.length_cons]
            rw [ih rs is hrest]
            omega

/-- The select loop preserves list length on success. -/
theorem selectLoop_ok_length (src : List JValue) :
    ∀ (vs : List JValue) (out : List JValue),
      selectLoop src vs = .ok out → out.length = vs.length := by
  intro vs
  induction vs with
  | nil => intro out h; cases h; rfl
  | cons v rest ih =>
    intro out h
    simp only [selectLoop] at h
    cases hv : v.to_integer with
    | none => rw [hv] at h; cases h
    | some index =>
      rw [hv] at h
      dsimp only at h
      by_cases hc : index < 0 ∨ src.length ≤ index.toNat
      · rw [if_pos hc] at h; cases h
      · rw [if_neg hc] at h
        cases hrest : selectLoop src rest with
        | error e => rw [hrest] at h; cases h
        | ok is =>
          rw [hrest] at h
          simp at h
          subst h
          simp [ih is hrest]

/-- Reshape preserves the invariant. -/
theorem reshape_inv (a : JArray) (ns : ArrayShape) (r : JArray)
    (h : a.reshape ns = .ok r) (ha : a.inv) : r.inv := by
  simp only [JArray.reshape] at h
  by_cases hc : a.shape.total_elements ≠ ns.total_elements
  · rw [if_pos hc] at h; cases h
  · rw [if_neg hc] at h
    cases h
    push_neg at hc
    simpa [JArray.inv, ← hc] using ha

/-- Selection preserves the invariant when the indices array satisfies
it. -/
theorem select_from_inv (src idx r : JArray)
    (h : src.select_from idx = .ok r) (hi : idx.inv) : r.inv := by
  simp only [JArray.select_from] at h
  cases hloop : selectLoop src.data idx.data with
  | error e => rw [hloop] at h; cases h
  | ok out =>
    rw [hloop] at h
    simp at h
    subst h
    simp only [JArray.inv]
    rw [selectLoop_ok_length src.data idx.data out hloop]
    exact hi

/-- Concatenation of representable operands (combined length below 2^64,
as any two Rust Vecs have) produces an invariant-satisfying array. -/
theorem concatenate_inv (a b r : JArray)
    (hlen : a.data.length + b.data.length < 2 ^ 64)
    (h : a.concatenate b = .ok r) : r.inv := by
  simp only [JArray.concatenate] at h
  by_cases hv : (a.is_vector && b.is_vector) = true
  · rw [if_pos hv] at h
    cases h
    refine mk_vector_inv _ ?_
    simpa using hlen
  · rw [if_neg hv] at h
    by_cases hs : (a.is_scalar && b.is_scalar) = true
    · rw [if_pos hs] at h
      cases h
      simp [JArray.inv, ArrayShape.vector, ArrayShape.total_elements]
    · rw [if_neg hs] at h
      cases h
      refine mk_vector_inv _ ?_
      simpa [JArray.ravel] using hlen

/-- The float-to-i32 cast saturates below the i32 upper bound. -/
theorem f64_to_i32_le (q : Rat) : f64_to_i32 q ≤ 2 ^ 31 - 1 := by
  simp only [f64_to_i32]
  apply max_le
  · norm_num
  · exact min_le_left _ _

/-- Iota on an argument whose integer payload is representable (below
2^64; an i32 in the code) produces an invariant-satisfying vector. -/
theorem iota_inv (a r : JArray)
    (hk : ∀ k : Int, a.data.headD (.Integer 0) = .Integer k → k < 2 ^ 64)
    (h : iota a = .ok r) : r.inv := by
  simp only [iota] at h
  split at h
  · cases h
  · split at h
    · cases h
    · rename_i n heq
      split at h
      · cases h
      · rename_i hneg
        cases h
        refine vector_inv _ ?_
        simp only [List.length_map, List.length_range]
        cases hv : a.data.headD (.Integer 0) with
        | Integer k =>
          rw [hv] at heq
          simp only [JValue.to_integer, Option.some.injEq] at heq
          have := hk k hv
          omega
        | Float q =>
          rw [hv] at heq
          simp only [JValue.to_integer, Option.some.injEq] at heq
          have := f64_to_i32_le q
          omega
        | Character c => rw [hv] at heq; cases heq
        | Box d sh => rw [hv] at heq; cases heq

/-- Monadic plus preserves the invariant. -/
theorem plus_monadic_inv (a r : JArray)
    (h : plus_monadic a = .ok r) (ha : a.inv) : r.inv := by
  cases h
  exact ha

/-- The tally verb produces an invariant-satisfying scalar. -/
theorem tally_verb_inv (a r : JArray) (h : tally_verb a = .ok r) : r.inv := by
  cases h
  exact scalar_inv _

/-- The ravel verb preserves the invariant. -/
theorem ravel_verb_inv (a r : JArray) (h : ravel_verb a = .ok r)
    (ha : a.inv) : r.inv := by
  cases h
  exact mk_vector_inv _ (inv_length_lt a ha)

/-- The box verb produces an invariant-satisfying scalar. -/
theorem box_verb_inv (a r : JArray) (h : box_verb a = .ok r) : r.inv := by
  cases h
  simp [JArray.inv, JArray.box_array, ArrayShape.scalar, ArrayShape.total_elements]

/-- Dyadic plus preserves the invariant. -/
theorem plus_dyadic_inv (a b r : JArray)
    (h : plus_dyadic a b = .ok r) (ha : a.inv) (hb : b.inv) : r.inv := by
  simp only [plus_dyadic] at h
  split at h
  · split at h
    · split at h
      · cases h
      · split at h
        · cases h
        · cases h; exact scalar_inv _
    · split at h
      · cases h
      · rename_i sval heq
        cases hres : mapValsToInts "Addition requires numeric values"
          (fun i => wrap32 (sval + i)) b.data with
        | error e => rw [hres] at h; cases h
        | ok out =>
          rw [hres] at h
          cases h
          refine vector_inv _ ?_
          rw [mapValsToInts_ok_length _ _ b.data out hres]
          exact inv_length_lt b hb
  · split at h
    · split at h
      · cases h
      · rename_i sval heq
        cases hres : mapValsToInts "Addition requires numeric values"
          (fun i => wrap32 (i + sval)) a.data with
        | error e => rw [hres] at h; cases h
        | ok out =>
          rw [hres] at h
          cases h
          refine vector_inv _ ?_
          rw [mapValsToInts_ok_length _ _ a.data out hres]
          exact inv_length_lt a ha
    · split at h
      · cases h
      · rename_i hls hrs hdims
        cases hres : zipValsToInts "Addition requires numeric values"
          (fun x y => wrap32 (x + y)) a.data b.data with
        | error e => rw [hres] at h; cases h
        | ok out =>
          rw [hres] at h
          cases h
          have hlen := zipValsToInts_ok_length _ _ a.data b.data out hres
          push_neg at hdims
          have htot : a.shape.total_elements = b.shape.total_elements := by
            simp [ArrayShape.total_elements, hdims]
          simp only [JArray.inv] at ha hb ⊢
          simp only [List.length_map]
          omega

/-- The dyadic reshape verb preserves the invariant of the data array. -/
theorem reshape_verb_inv (sa da r : JArray)
    (h : reshape_verb sa da = .ok r) (hd : da.inv) : r.inv := by
  simp only [reshape_verb] at h
  cases hm : mapValsToInts "Shape must contain integers" id sa.data with
  | error e => rw [hm] at h; cases h
  | ok dims =>
    rw [hm] at h
    simp only [except_bind_ok] at h
    cases hr2 : da.reshape ⟨dims.map intToUsize⟩ with
    | error e => rw [hr2] at h; cases h
    | ok rr =>
      rw [hr2] at h
      cases h
      exact reshape_inv da _ _ hr2 hd

/-- The dyadic from verb preserves the invariant of the indices array. -/
theorem from_verb_inv (idx src r : JArray)
    (h : from_verb idx src = .ok r) (hi : idx.inv) : r.inv := by
  simp only [from_verb] at h
  cases hs : src.select_from idx with
  | error e => rw [hs] at h; cases h
  | ok rr =>
    rw [hs] at h
    cases h
    exact select_from_inv src idx _ hs hi

/-- The dyadic concatenate verb on representable operands produces an
invariant-satisfying array. -/
theorem concatenate_verb_inv (a b r : JArray)
    (hlen : a.data.length + b.data.length < 2 ^ 64)
    (h : concatenate_verb a b = .ok r) : r.inv := by
  simp only [concatenate_verb] at h
  cases hc : a.concatenate b with
  | error e => rw [hc] at h; cases h
  | ok rr =>
    rw [hc] at h
    cases h
    exact concatenate_inv a b _ hlen hc

/-- Dyadic less-than preserves the invariant. -/
theorem less_than_inv (a b r : JArray)
    (h : less_than a b = .ok r) (ha : a.inv) (hb : b.inv) : r.inv := by
  simp only [less_than] at h
  split at h
  · split at h
    · cases h
    · split at h
      · cases h
      · cases h; exact scalar_inv _
  · split at h
    · cases h
    · rename_i hss htot
      cases hres : zipValsToInts "Comparison requires numeric values"
        (fun x y => if x < y then 1 else 0) a.data b.data with
      | error e => rw [hres] at h; cases h
      | ok out =>
        rw [hres] at h
        cases h
        have hlen := zipValsToInts_ok_length _ _ a.data b.data out hres
        push_neg at htot
        simp only [JArray.inv] at ha hb ⊢
        simp only [List.length_map]
        omega

/-- Boxing always produces an invariant-satisfying scalar array. -/
theorem box_array_inv (a : JArray) : (JArray.box_array a).inv := by
  simp [JArray.inv, JArray.box_array, ArrayShape.scalar, ArrayShape.total_elements]

/-- C8 counterexample: release-mode reshape breaks the invariant read
with the unwrapped mathematical product. From the invariant-satisfying
inputs vector [-1, -1] and scalar 5, the dyadic reshape verb succeeds
(the wrapping usize product of the dimensions is 1) and returns an array
with one data element whose dimensions have mathematical product
(2^64 - 1)^2, not 1. -/
theorem invariant_preservation_counterexample :
    (JArray.vector [-1, -1]).inv
    ∧ (JArray.scalar 5).inv
    ∧ reshape_verb (JArray.vector [-1, -1]) (JArray.scalar 5) =
        .ok ⟨[JValue.Integer 5],
             ⟨[18446744073709551615, 18446744073709551615]⟩⟩
    ∧ ([JValue.Integer 5] : List JValue).length ≠
        ([18446744073709551615, 18446744073709551615] : List Nat).prod :=
  ⟨vector_inv [-1, -1] (by norm_num), scalar_inv 5, rfl, by decide⟩

/-- C8 (amended): every array produced by the array-model operations
(reshape, select_from, concatenate, ravel, box) and by every evaluator
verb satisfies data.len() == total_elements(shape), with total_elements
as the code computes it (usize product wrapping modulo 2^64, empty
product 1), whenever the input arrays satisfy the invariant and are
representable: a concatenation's combined data length stays below 2^64
and an iota argument's integer payload is below 2^64 (both automatic for
real Rust Vec lengths and i32 payloads). -/
theorem invariant_preservation :
    (∀ (a : JArray) (ns : ArrayShape) (r : JArray),
      a.inv → a.reshape ns = .ok r → r.inv)
    ∧ (∀ src idx r : JArray, idx.inv → src.select_from idx = .ok r → r.inv)
    ∧ (∀ a b r : JArray, a.inv → b.inv →
        a.data.length + b.data.length < 2 ^ 64 →
        a.concatenate b = .ok r → r.inv)
    ∧ (∀ a : JArray, a.inv → a.ravel.inv)
    ∧ (∀ a : JArray, a.inv → (JArray.box_array a).inv)
    ∧ (∀ a r : JArray, a.inv →
        (∀ k : Int, a.data.headD (.Integer 0) = .Integer k → k < 2 ^ 64) →
        iota a = .ok r → r.inv)
    ∧ (∀ a r : JArray, a.inv → plus_monadic a = .ok r → r.inv)
    ∧ (∀ a r : JArray, a.inv → tally_verb a = .ok r → r.inv)
    ∧ (∀ a r : JArray, a.inv → ravel_verb a = .ok r → r.inv)
    ∧ (∀ a r : JArray, a.inv → box_verb a = .ok r → r.inv)
    ∧ (∀ a b r : JArray, a.inv → b.inv → plus_dyadic a b = .ok r → r.inv)
    ∧ (∀ a b r : JArray, a.inv → b.inv → reshape_verb a b = .ok r → r.inv)
    ∧ (∀ a b r : JArray, a.inv → b.inv → from_verb a b = .ok r → r.inv)
    ∧ (∀ a b r : JArray, a.inv → b.inv →
        a.data.length + b.data.length < 2 ^ 64 →
        concatenate_verb a b = .ok r → r.inv)
    ∧ (∀ a b r : JArray, a.inv → b.inv → less_than a b = .ok r → r.inv) :=
  ⟨fun a ns r ha h => reshape_inv a ns r h ha,
   fun src idx r hi h => select_from_inv src idx r h hi,
   fun a b r _ _ hlen h => concatenate_inv a b r hlen h,
   fun a ha => mk_vector_inv a.data (inv_length_lt a ha),
   fun a _ => box_array_inv a,
   fun a r _ hk h => iota_inv a r hk h,
   fun a r ha h => plus_monadic_inv a r h ha,
   fun a r _ h => tally_verb_inv a r h,
   fun a r ha h => ravel_verb_inv a r h ha,
   fun a r _ h => box_verb_inv a r h,
   fun a b r ha hb h => plus_dyadic_inv a b r h ha hb,
   fun a b r _ hb h => reshape_verb_inv a b r h hb,
   fun a b r ha _ h => from_verb_inv a b r h ha,
   fun a b r _ _ hlen h => concatenate_verb_inv a b r hlen h,
   fun a b r ha hb h => less_than_inv a b r h ha hb⟩

/-- C8 witness: each component instantiated at concrete arrays. -/
theorem invariant_preservation_witness :
    (JArray.mk [JValue.Integer 7] ⟨[1]⟩).inv
    ∧ (JArray.mk [JValue.Integer 10] (ArrayShape.vector 1)).inv
    ∧ (JArray.mk [JValue.Integer 1, JValue.Integer 2]
        (ArrayShape.vector 2)).inv
    ∧ (JArray.scalar 5).ravel.inv
    ∧ (JArray.box_array (JArray.scalar 5)).inv
    ∧ (JArray.vector [0]).inv
    ∧ (JArray.scalar 5).inv
    ∧ (JArray.scalar 1).inv
    ∧ (JArray.scalar 5).ravel.inv
    ∧ (JArray.box_array (JArray.scalar 5)).inv
    ∧ (JArray.scalar 3).inv
    ∧ (JArray.mk [JValue.Integer 7] ⟨[1]⟩).inv
    ∧ (JArray.mk [JValue.Integer 10] (ArrayShape.vector 1)).inv
    ∧ (JArray.mk [JValue.Integer 1, JValue.Integer 2]
        (ArrayShape.vector 2)).inv
    ∧ (JArray.scalar 1).inv :=
  ⟨invariant_preservation.1 (JArray.scalar 7) ⟨[1]⟩ _ (scalar_inv 7) rfl,
   invariant_preservation.2.1 (JArray.vector [10]) (JArray.vector [0]) _
     (vector_inv [0] (by norm_num)) rfl,
   invariant_preservation.2.2.1 (JArray.scalar 1) (JArray.scalar 2) _
     (scalar_inv 1) (scalar_inv 2) (by decide) rfl,
   invariant_preservation.2.2.2.1 (JArray.scalar 5) (scalar_inv 5),
   invariant_preservation.2.2.2.2.1 (JArray.scalar 5) (scalar_inv 5),
   invariant_preservation.2.2.2.2.2.1 (JArray.scalar 1) _ (scalar_inv 1)
     (by intro k hk; simp [JArray.scalar] at hk; omega) rfl,
   invariant_preservation.2.2.2.2.2.2.1 (JArray.scalar 5) _
     (scalar_inv 5) rfl,
   invariant_preservation.2.2.2.2.2.2.2.1 (JArray.scalar 5) _
     (scalar_inv 5) rfl,
   invariant_preservation.2.2.2.2.2.2.2.2.1 (JArray.scalar 5) _
     (scalar_inv 5) rfl,
   invariant_preservation.2.2.2.2.2.2.2.2.2.1 (JArray.scalar 5) _
     (scalar_inv 5) rfl,
   invariant_preservation.2.2.2.2.2.2.2.2.2.2.1 (JArray.scalar 1)
     (JArray.scalar 2) _ (scalar_inv 1) (scalar_inv 2) rfl,
   invariant_preservation.2.2.2.2.2.2.2.2.2.2.2.1 (JArray.vector [1])
     (JArray.scalar 7) _ (vector_inv [1] (by norm_num)) (scalar_inv 7) rfl,
   invariant_preservation.2.2.2.2.2.2.2.2.2.2.2.2.1 (JArray.vector [0])
     (JArray.vector [10]) _ (vector_inv [0] (by norm_num))
     (vector_inv [10] (by norm_num)) rfl,
   invariant_preservation.2.2.2.2.2.2.2.2.2.2.2.2.2.1 (JArray.scalar 1)
     (JArray.scalar 2) _ (scalar_inv 1) (scalar_inv 2) (by decide) rfl,
   invariant_preservation.2.2.2.2.2.2.2.2.2.2.2.2.2.2 (JArray.scalar 1)
     (JArray.scalar 2) _ (scalar_inv 1) (scalar_inv 2) rfl⟩

/-- C9: a maximal run of space-separated numerals folds into one Vector
token ("1 2 3" is a single rank-1 three-element token, "1" alone a rank-0
token); "1 2 & 3" fails with UnknownCharacter of the ampersand; and any
input whose next character is not a digit, a verb, a parenthesis or a
space fails the whole call with UnknownCharacter of that character. -/
theorem tokenize_spec :
    tokenize "1 2 3" = .ok [.Vector (JArray.vector [1, 2, 3])]
    ∧ tokenize "1" = .ok [.Vector (JArray.scalar 1)]
    ∧ tokenize "1 2 & 3" = .error (.UnknownCharacter '&')
    ∧ (∀ (c : Char) (cs : List Char),
        c.isDigit = false → c ≠ '+' → c ≠ '~' → c ≠ '#' → c ≠ '<' →
        c ≠ '{' → c ≠ ',' → c ≠ '(' → c ≠ ')' → c ≠ ' ' →
        tokenize (String.mk (c :: cs)) = .error (.UnknownCharacter c)) := by
  refine ⟨rfl, rfl, rfl, ?_⟩
  intro c cs hd h1 h2 h3 h4 h5 h6 h7 h8 h9
  show tokenizeAux ((String.mk (c :: cs)).data.length + 1)
    (String.mk (c :: cs)).data = .error (.UnknownCharacter c)
  simp [tokenizeAux, hd, h1, h2, h3, h4, h5, h6, h7, h8, h9]

/-- C9 witness: the unknown-character case applied at an ampersand head. -/
theorem tokenize_spec_witness :
    tokenize (String.mk ['&', '1']) = .error (.UnknownCharacter '&') :=
  tokenize_spec.2.2.2 '&' ['1'] (by decide) (by decide) (by decide)
    (by decide) (by decide) (by decide) (by decide) (by decide) (by decide)
    (by decide)

/-- Successful context resolution leaves no ambiguous node. -/
theorem resolve_noAmb : ∀ t t', resolve_context t = .ok t' → noAmb t' := by
  intro t
  induction t using resolve_context.induct with
  | case1 verb right ih =>
    intro t' h
    simp only [resolve_context] at h
    cases hr : resolve_context right with
    | error e => rw [hr] at h; cases h
    | ok rr =>
      rw [hr] at h
      simp only [except_bind_ok] at h
      cases hv : validate_monadic_verb verb with
      | error e => rw [hv] at h; cases h
      | ok u =>
        rw [hv] at h
        simp only [except_bind_ok] at h
        cases h
        exact ih rr hr
  | case2 verb left right ihl ihr =>
    intro t' h
    simp only [resolve_context] at h
    cases hl : resolve_context left with
    | error e => rw [hl] at h; cases h
    | ok ll =>
      rw [hl] at h
      simp only [except_bind_ok] at h
      cases hr : resolve_context right with
      | error e => rw [hr] at h; cases h
      | ok rr =>
        rw [hr] at h
        simp only [except_bind_ok] at h
        cases hv : validate_dyadic_verb verb with
        | error e => rw [hv] at h; cases h
        | ok u =>
          rw [hv] at h
          simp only [except_bind_ok] at h
          cases h
          exact ⟨ihl ll hl, ihr rr hr⟩
  | case3 verb l => intro t' h; cases h
  | case4 verb => intro t' h; cases h
  | case5 a =>
    intro t' h
    cases h
    trivial
  | case6 verb arg ih =>
    intro t' h
    simp only [resolve_context] at h
    cases hr : resolve_context arg with
    | error e => rw [hr] at h; cases h
    | ok rr =>
      rw [hr] at h
      simp only [except_bind_ok] at h
      cases hv : validate_monadic_verb verb with
      | error e => rw [hv] at h; cases h
      | ok u =>
        rw [hv] at h
        simp only [except_bind_ok] at h
        cases h
        exact ih rr hr
  | case7 verb left right ihl ihr =>
    intro t' h
    simp only [resolve_context] at h
    cases hl : resolve_context left with
    | error e => rw [hl] at h; cases h
    | ok ll =>
      rw [hl] at h
      simp only [except_bind_ok] at h
      cases hr : resolve_context right with
      | error e => rw [hr] at h; cases h
      | ok rr =>
        rw [hr] at h
        simp only [except_bind_ok] at h
        cases hv : validate_dyadic_verb verb with
        | error e => rw [hv] at h; cases h
        | ok u =>
          rw [hv] at h
          simp only [except_bind_ok] at h
          cases h
          exact ⟨ihl ll hl, ihr rr hr⟩

/-- The collecting map only fails with its own DomainError message. -/
theorem mapValsToInts_error (msg : String) (f : Int → Int) :
    ∀ (vs : List JValue) (e : EvaluationError),
      mapValsToInts msg f vs = .error e → e = .DomainError msg := by
  intro vs
  induction vs with
  | nil => intro e h; cases h
  | cons v rest ih =>
    intro e h
    simp only [mapValsToInts] at h
    cases hv : v.to_integer with
    | none => rw [hv] at h; cases h; rfl
    | some i =>
      rw [hv] at h
      cases hrest : mapValsToInts msg f rest with
      | error e2 =>
        rw [hrest] at h
        cases h
        exact ih _ hrest
      | ok is => rw [hrest] at h; cases h

/-- The collecting zip only fails with its own DomainError message. -/
theorem zipValsToInts_error (msg : String) (f : Int → Int → Int) :
    ∀ (ls rs : List JValue) (e : EvaluationError),
      zipValsToInts msg f ls rs = .error e → e = .DomainError msg := by
  intro ls
  induction ls with
  | nil => intro rs e h; cases h
  | cons l ls ih =>
    intro rs e h
    cases rs with
    | nil => cases h
    | cons r rs =>
      simp only [zipValsToInts] at h
      cases hl : l.to_integer with
      | none => rw [hl] at h; cases h; rfl
      | some a =>
        rw [hl] at h
        cases hr : r.to_integer with
        | none => rw [hr] at h; cases h; rfl
        | some b =>
          rw [hr] at h
          cases hrest : zipValsToInts msg f ls rs with
          | error e2 =>
            rw [hrest] at h
            cases h
            exact ih _ _ hrest
          | ok is => rw [hrest] at h; cases h

/-- Iota never produces the internal-ambiguity error. -/
theorem iota_no_internal (a : JArray) :
    iota a ≠ .error (.DomainError internalAmbiguousMsg) := by
  simp only [iota]
  split
  · intro h; simp [internalAmbiguousMsg] at h
  · split
    · intro h; simp [internalAmbiguousMsg] at h
    · split
      · intro h; simp [internalAmbiguousMsg] at h
      · intro h; simp at h

/-- Dyadic plus never produces the internal-ambiguity error. -/
theorem plus_dyadic_no_internal (a b : JArray) :
    plus_dyadic a b ≠ .error (.DomainError internalAmbiguousMsg) := by
  simp only [plus_dyadic]
  split
  · split
    · split
      · intro h; simp [internalAmbiguousMsg] at h
      · split
        · intro h; simp [internalAmbiguousMsg] at h
        · intro h; simp at h
    · split
      · intro h; simp [internalAmbiguousMsg] at h
      · rename_i sval heq
        intro h
        cases hres : mapValsToInts "Addition requires numeric values"
          (fun i => wrap32 (sval + i)) b.data with
        | error e =>
          rw [hres] at h
          simp at h
          have := mapValsToInts_error _ _ _ _ hres
          rw [this] at h
          simp [internalAmbiguousMsg] at h
        | ok out => rw [hres] at h; simp at h
  · split
    · split
      · intro h; simp [internalAmbiguousMsg] at h
      · rename_i sval heq
        intro h
        cases hres : mapValsToInts "Addition requires numeric values"
          (fun i => wrap32 (i + sval)) a.data with
        | error e =>
          rw [hres] at h
          simp at h
          have := mapValsToInts_error _ _ _ _ hres
          rw [this] at h
          simp [internalAmbiguousMsg] at h
        | ok out => rw [hres] at h; simp at h
    · split
      · intro h; simp [internalAmbiguousMsg] at h
      · intro h
        cases hres : zipValsToInts "Addition requires numeric values"
          (fun x y => wrap32 (x + y)) a.data b.data with
        | error e =>
          rw [hres] at h
          simp at h
          have := zipValsToInts_error _ _ _ _ _ hres
          rw [this] at h
          simp [internalAmbiguousMsg] at h
        | ok out => rw [hres] at h; simp at h

/-- The dyadic reshape verb never produces the internal-ambiguity
error. -/
theorem reshape_verb_no_internal (sa da : JArray) :
    reshape_verb sa da ≠ .error (.DomainError internalAmbiguousMsg) := by
  simp only [reshape_verb]
  intro h
  cases hm : mapValsToInts "Shape must contain integers" id sa.data with
  | error e =>
    rw [hm] at h
    simp at h
    have := mapValsToInts_error _ _ _ _ hm
    rw [this] at h
    simp [internalAmbiguousMsg] at h
  | ok dims =>
    rw [hm] at h
    simp only [except_bind_ok] at h
    cases hr : da.reshape ⟨dims.map intToUsize⟩ with
    | error e => rw [hr] at h; simp at h
    | ok rr => rw [hr] at h; simp at h

/-- The dyadic from verb never produces the internal-ambiguity error. -/
theorem from_verb_no_internal (idx src : JArray) :
    from_verb idx src ≠ .error (.DomainError internalAmbiguousMsg) := by
  simp only [from_verb]
  intro h
  cases hs : src.select_from idx with
  | error e => rw [hs] at h; simp at h
  | ok rr => rw [hs] at h; simp at h

/-- The dyadic concatenate verb never produces the internal-ambiguity
error. -/
theorem concatenate_verb_no_internal (a b : JArray) :
    concatenate_verb a b ≠ .error (.DomainError internalAmbiguousMsg) := by
  simp only [concatenate_verb]
  intro h
  cases hc : a.concatenate b with
  | error e => rw [hc] at h; simp at h
  | ok rr => rw [hc] at h; simp at h

/-- Dyadic less-than never produces the internal-ambiguity error. -/
theorem less_than_no_internal (a b : JArray) :
    less_than a b ≠ .error (.DomainError internalAmbiguousMsg) := by
  simp only [less_than]
  split
  · split
    · intro h; simp [internalAmbiguousMsg] at h
    · split
      · intro h; simp [internalAmbiguousMsg] at h
      · intro h; simp at h
  · split
    · intro h; simp [internalAmbiguousMsg] at h
    · intro h
      cases hres : zipValsToInts "Comparison requires numeric values"
        (fun x y => if x < y then 1 else 0) a.data b.data with
      | error e =>
        rw [hres] at h
        simp at h
        have := zipValsToInts_error _ _ _ _ _ hres
        rw [this] at h
        simp [internalAmbiguousMsg] at h
      | ok out => rw [hres] at h; simp at h

/-- Evaluation of an ambiguity-free tree never produces the internal
AmbiguousVerb error. -/
theorem evaluate_no_internal :
    ∀ u : JNode, noAmb u →
      evaluate u ≠ .error (.DomainError internalAmbiguousMsg) := by
  intro u
  induction u using evaluate.induct with
  | case1 a => intro hn h; simp [evaluate] at h
  | case2 verb arg ih =>
    intro hn h
    simp only [evaluate] at h
    cases harg : evaluate arg with
    | error e =>
      rw [harg] at h
      simp at h
      rw [h] at harg
      exact ih hn harg
    | ok av =>
      rw [harg] at h
      simp only [except_bind_ok] at h
      by_cases h1 : verb = '~'
      · subst h1; rw [if_pos rfl] at h; exact iota_no_internal av h
      · rw [if_neg h1] at h
        by_cases h2 : verb = '+'
        · subst h2; rw [if_pos rfl] at h; simp [plus_monadic] at h
        · rw [if_neg h2] at h
          by_cases h3 : verb = '#'
          · subst h3; rw [if_pos rfl] at h; simp [tally_verb] at h
          · rw [if_neg h3] at h
            by_cases h4 : verb = ','
            · subst h4; rw [if_pos rfl] at h; simp [ravel_verb] at h
            · rw [if_neg h4] at h
              by_cases h5 : verb = '<'
              · subst h5; rw [if_pos rfl] at h; simp [box_verb] at h
              · rw [if_neg h5] at h; simp at h
  | case3 verb l rn ihl ihr =>
    intro hn h
    obtain ⟨hnl, hnr⟩ := hn
    simp only [evaluate] at h
    cases hL : evaluate l with
    | error e =>
      rw [hL] at h
      simp at h
      rw [h] at hL
      exact ihl hnl hL
    | ok lv =>
      rw [hL] at h
      simp only [except_bind_ok] at h
      cases hR : evaluate rn with
      | error e =>
        rw [hR] at h
        simp at h
        rw [h] at hR
        exact ihr hnr hR
      | ok rv =>
        rw [hR] at h
        simp only [except_bind_ok] at h
        by_cases h1 : verb = '+'
        · subst h1; rw [if_pos rfl] at h
          exact plus_dyadic_no_internal lv rv h
        · rw [if_neg h1] at h
          by_cases h2 : verb = '#'
          · subst h2; rw [if_pos rfl] at h
            exact reshape_verb_no_internal lv rv h
          · rw [if_neg h2] at h
            by_cases h3 : verb = '{'
            · subst h3; rw [if_pos rfl] at h
              exact from_verb_no_internal lv rv h
            · rw [if_neg h3] at h
              by_cases h4 : verb = ','
              · subst h4; rw [if_pos rfl] at h
                exact concatenate_verb_no_internal lv rv h
              · rw [if_neg h4] at h
                by_cases h5 : verb = '<'
                · subst h5; rw [if_pos rfl] at h
                  exact less_than_no_internal lv rv h
                · rw [if_neg h5] at h; simp at h
  | case4 v ol orr => intro hn h; cases hn

/-- C10: a tree accepted by semantic analysis contains no AmbiguousVerb
node, and evaluating any ambiguity-free tree can never reach the
evaluator's internal AmbiguousVerb error branch. -/
theorem analyze_no_ambiguous :
    (∀ t t' : JNode, analyze t = .ok t' → noAmb t')
    ∧ (∀ u : JNode, noAmb u →
        evaluate u ≠ .error (.DomainError internalAmbiguousMsg)) :=
  ⟨fun t t' h => resolve_noAmb t t' h, evaluate_no_internal⟩

/-- C10 witness: both parts applied at a concrete resolved tree. -/
theorem analyze_no_ambiguous_witness :
    noAmb (.MonadicVerb '~' (.Literal (JArray.scalar 3)))
    ∧ evaluate (.MonadicVerb '~' (.Literal (JArray.scalar 3))) ≠
        .error (.DomainError internalAmbiguousMsg) :=
  ⟨analyze_no_ambiguous.1
     (.AmbiguousVerb '~' none (some (.Literal (JArray.scalar 3))))
     (.MonadicVerb '~' (.Literal (JArray.scalar 3))) rfl,
   analyze_no_ambiguous.2 (.MonadicVerb '~' (.Literal (JArray.scalar 3)))
     (by simp [noAmb])⟩
